import Mathlib

/-!
Shallow embedding of the voyager set-of-marks scripts:
`src/voyager/scripts/browser-annotate.js` (markPage) and the cleanup
script (clearRectsAndTags / clearElements).

Geometry is modelled over ℚ (the scripts manipulate device-independent
pixel coordinates); the DOM is modelled as a list of element records,
each carrying its identity, tag name, role attribute, the chain of its
strict ancestors (the `parentElement` chain), its text content and its
client rectangles.  The layout engine's `elementFromPoint` query is a
field of the page snapshot.
-/

namespace Voyager

/-- `const MAX_ELEMENTS = 60`. -/
def MAX_ELEMENTS : Nat := 60

/-- `const MIN_AREA = 20`. -/
def MIN_AREA : ℚ := 20

/-- `const labelHeight = 20` (approximate height of a label, in markPage). -/
def labelHeight : ℚ := 20

/-- One DOMRect as returned by `getClientRects()`: `left`/`top` with
non-negative `width`/`height`; `right`/`bottom` are derived accessors. -/
structure ClientRect where
  left : ℚ
  top : ℚ
  width : ℚ
  height : ℚ
deriving DecidableEq, Repr

/-- DOMRect accessor: `bb.right = bb.left + bb.width`. -/
def ClientRect.right (bb : ClientRect) : ℚ := bb.left + bb.width

/-- DOMRect accessor: `bb.bottom = bb.top + bb.height`. -/
def ClientRect.bottom (bb : ClientRect) : ℚ := bb.top + bb.height

/-- A DOM element of the scanned document.  `eid` is the node's identity
(reference equality `===` is modelled as equality of `eid`); `ancestors`
lists the `eid`s of the element's strict ancestors, i.e. its
`parentElement` chain up to the document root; `role` is the value of the
`role` attribute when present; `clientRects` is what `getClientRects()`
returns for the element. -/
structure Elem where
  eid : Nat
  tagName : String
  role : Option String
  ancestors : List Nat
  textContent : String
  clientRects : List ClientRect
deriving DecidableEq, Repr

/-- DOM `y.contains(x)`: `x` is `y` itself or a descendant of `y`. -/
def containsDom (y x : Elem) : Bool :=
  x.eid == y.eid || x.ancestors.contains y.eid

/-- `getDepth(element)`: the number of `parentElement` hops from the
element up to the document root, i.e. the number of strict ancestors. -/
def getDepth (element : Elem) : Nat := element.ancestors.length

/-- A snapshot of the page: viewport size sources and the document.
`elementFromPoint x y` is the layout engine's topmost-element-at-point
query (`document.elementFromPoint`), returning `none` where the DOM API
returns `null`. -/
structure Page where
  docClientWidth : ℚ
  innerWidth : ℚ
  docClientHeight : ℚ
  innerHeight : ℚ
  elems : List Elem
  elementFromPoint : ℚ → ℚ → Option Elem

/-- `vw = Math.max(document.documentElement.clientWidth || 0, window.innerWidth || 0)`. -/
def vw (p : Page) : ℚ := max p.docClientWidth p.innerWidth

/-- `vh = Math.max(document.documentElement.clientHeight || 0, window.innerHeight || 0)`. -/
def vh (p : Page) : ℚ := max p.docClientHeight p.innerHeight

/-- The interactivity classification of markPage: tag is one of
INPUT/TEXTAREA/SELECT/BUTTON/A/IFRAME/VIDEO, or the element has a `role`
attribute whose value is button/link/checkbox/menuitem/tab. -/
def isInteractive (element : Elem) : Bool :=
  element.tagName == "INPUT" ||
  element.tagName == "TEXTAREA" ||
  element.tagName == "SELECT" ||
  element.tagName == "BUTTON" ||
  element.tagName == "A" ||
  element.tagName == "IFRAME" ||
  element.tagName == "VIDEO" ||
  (match element.role with
   | some r => ["button", "link", "checkbox", "menuitem", "tab"].contains r
   | none => false)

/-- The center-point occlusion test of markPage's first rectangle filter:
a rectangle is kept iff `document.elementFromPoint(center)` returns the
candidate itself or an element the candidate contains.  When the query
returns `null` (modelled as `none`), both `elAtCenter === element` and
`element.contains(elAtCenter)` are false, so the rectangle is dropped. -/
def keepRect (p : Page) (element : Elem) (bb : ClientRect) : Bool :=
  let center_x := bb.left + bb.width / 2
  let center_y := bb.top + bb.height / 2
  match p.elementFromPoint center_x center_y with
  | none => false
  | some elAtCenter => elAtCenter.eid == element.eid || containsDom element elAtCenter

/-- A clipped rectangle, after the two `.map` steps of markPage: the
clipped sides plus the derived `width`/`height`. -/
structure Box where
  left : ℚ
  top : ℚ
  right : ℚ
  bottom : ℚ
  width : ℚ
  height : ℚ
deriving DecidableEq, Repr

/-- Viewport clipping of markPage (the two `.map` steps fused):
`left/top` floored at 0, `right/bottom` capped at the viewport, and
`width`/`height` derived from the clipped sides. -/
def clipRect (w h : ℚ) (bb : ClientRect) : Box :=
  let left := max 0 bb.left
  let top := max 0 bb.top
  let right := min w bb.right
  let bottom := min h bb.bottom
  { left := left, top := top, right := right, bottom := bottom,
    width := right - left, height := bottom - top }

/-- The full rectangle pipeline of markPage for one element:
center-point occlusion filter, viewport clipping, then discarding
rectangles whose clipped width or height is ≤ 0. -/
def visibleRects (p : Page) (element : Elem) : List Box :=
  ((element.clientRects.filter (keepRect p element)).map
      (clipRect (vw p) (vh p))).filter
    (fun rect => decide (0 < rect.width) && decide (0 < rect.height))

/-- One step of the whitespace collapsing of
`.replace(/\s{2,}/g, " ")`: each maximal run of two or more whitespace
characters becomes a single space, single whitespace characters are kept
as they are.  The boolean records whether the current position is inside
a run whose replacement space was already emitted. -/
def collapseWs : Bool → List Char → List Char
  | _, [] => []
  | inRun, c :: rest =>
    if c.isWhitespace then
      match rest with
      | c2 :: _ =>
        if c2.isWhitespace then
          if inRun then collapseWs true rest else ' ' :: collapseWs true rest
        else
          if inRun then collapseWs false rest else c :: collapseWs false rest
      | [] => if inRun then [] else [c]
    else c :: collapseWs false rest

/-- `.trim()`: remove leading and trailing whitespace. -/
def trimChars (cs : List Char) : List Char :=
  ((cs.dropWhile Char.isWhitespace).reverse.dropWhile Char.isWhitespace).reverse

/-- `element.textContent.trim().replace(/\s{2,}/g, " ").substring(0, 100)`. -/
def normText (s : String) : String :=
  String.mk ((collapseWs false (trimChars s.toList)).take 100)

/-- The Candidate record built by markPage's scan. -/
structure Item where
  element : Elem
  rects : List Box
  area : ℚ
  text : String
  depth : Nat
deriving DecidableEq, Repr

/-- `rects.reduce((acc, rect) => acc + rect.width * rect.height, 0)`. -/
def areaOf (rects : List Box) : ℚ :=
  rects.foldl (fun acc rect => acc + rect.width * rect.height) 0

/-- The body of markPage's `.map` over all elements, returning `null`
(`none`) for non-interactive elements, elements with no visible
rectangle, and elements of total visible area < MIN_AREA. -/
def toItem (p : Page) (element : Elem) : Option Item :=
  if !isInteractive element then none
  else
    let rects := visibleRects p element
    if rects.length = 0 then none
    else
      let area := areaOf rects
      if area < MIN_AREA then none
      else
        some { element := element, rects := rects, area := area,
               text := normText element.textContent,
               depth := getDepth element }

/-- `Array.from(document.querySelectorAll("*")).map(...).filter(Boolean)`. -/
def scanItems (p : Page) : List Item := p.elems.filterMap (toItem p)

/-- Nested-duplicate removal: keep `x` only if no item `y` has
`y.element.contains(x.element) && x.element !== y.element`. -/
def removeNested (items : List Item) : List Item :=
  items.filter (fun x =>
    !(items.any (fun y =>
        containsDom y.element x.element && x.element.eid != y.element.eid)))

/-- The sort comparator of the cap-enforcement step as a boolean ≤
relation: `cmp(a,b) ≤ 0` for
`if (a.depth !== b.depth) return a.depth - b.depth; return b.area - a.area`. -/
def itemLE (a b : Item) : Bool :=
  if a.depth ≠ b.depth then decide (a.depth < b.depth) else decide (b.area ≤ a.area)

/-- The ordered list of selected candidates: scan, nested-duplicate
removal, then — only when more than MAX_ELEMENTS survive — the stable
sort by ascending depth / descending area and truncation to the first
MAX_ELEMENTS (JavaScript `Array.prototype.sort` is stable, modelled by
`List.mergeSort`). -/
def selectItems (p : Page) : List Item :=
  let items := removeNested (scanItems p)
  if items.length > MAX_ELEMENTS then (items.mergeSort itemLE).take MAX_ELEMENTS
  else items

/-- The attribute written on each selected element. -/
def elemIndexAttr : String := "data-voyager-element-index"

/-- The attribute carried by every overlay container node. -/
def rectIndexAttr : String := "data-voyager-rect-index"

/-- The misspelled selector used by clearRectsAndTags' tag-removal pass. -/
def misspelledElemIndexAttr : String := "date-voyager-element-index"

/-- Label placement of markPage: below the box
(`labelTop = bbox.height + 2`) when `bbox.top < labelHeight`, above it
(`labelTop = -labelHeight`) otherwise. -/
def labelTopFor (bbox : Box) : ℚ :=
  if bbox.top < labelHeight then bbox.height + 2 else -labelHeight

/-- One overlay container node rendered by markPage: fixed position and
size copied from the clipped rectangle, the label's `top` offset, the
label's text (the index) and the `data-voyager-rect-index` value. -/
structure Overlay where
  left : ℚ
  top : ℚ
  width : ℚ
  height : ℚ
  labelTop : ℚ
  labelText : Nat
  rectIndex : Nat
deriving DecidableEq, Repr

/-- The overlay container markPage appends to `document.body` for one
clipped rectangle of the item with the given index. -/
def mkOverlay (index : Nat) (bbox : Box) : Overlay :=
  { left := bbox.left, top := bbox.top, width := bbox.width,
    height := bbox.height, labelTop := labelTopFor bbox,
    labelText := index, rectIndex := index }

/-- The mutable attribute state of one real page element. -/
structure ElemAttrs where
  eid : Nat
  attrs : List (String × String)
deriving DecidableEq, Repr

/-- `el.getAttribute(k)`. -/
def getA (attrs : List (String × String)) (k : String) : Option String :=
  (attrs.find? (fun kv => kv.1 == k)).map (fun kv => kv.2)

/-- `el.hasAttribute(k)`. -/
def hasA (attrs : List (String × String)) (k : String) : Bool :=
  attrs.any (fun kv => kv.1 == k)

/-- `el.setAttribute(k, v)`: overwrite the attribute if present,
otherwise add it. -/
def setA (attrs : List (String × String)) (k v : String) : List (String × String) :=
  if hasA attrs k then attrs.map (fun kv => if kv.1 == k then (k, v) else kv)
  else attrs ++ [(k, v)]

/-- `el.removeAttribute(k)`. -/
def removeA (attrs : List (String × String)) (k : String) : List (String × String) :=
  attrs.filter (fun kv => kv.1 != k)

/-- The mutable DOM state the scripts act on: the real elements'
attribute maps (in document order) and the synthetic overlay nodes
appended to `document.body`.  Every overlay node carries the
`data-voyager-rect-index` attribute by construction. -/
structure DomState where
  elemAttrs : List ElemAttrs
  overlays : List Overlay
deriving DecidableEq, Repr

/-- `item.element.setAttribute(k, v)`, applied to the element with the
given identity. -/
def setElemAttr (l : List ElemAttrs) (i : Nat) (k v : String) : List ElemAttrs :=
  l.map (fun ea => if ea.eid == i then { ea with attrs := setA ea.attrs k v } else ea)

/-- The body of markPage's `items.forEach((item, index) => ...)` for one
item: write the element-index attribute and append one overlay container
per visible rectangle. -/
def annotateOne (s : DomState) (index : Nat) (item : Item) : DomState :=
  { elemAttrs := setElemAttr s.elemAttrs item.element.eid elemIndexAttr (toString index),
    overlays := s.overlays ++ item.rects.map (mkOverlay index) }

/-- `items.forEach((item, index) => ...)` starting at a given index. -/
def annotateFrom (index : Nat) (items : List Item) (s : DomState) : DomState :=
  match items with
  | [] => s
  | item :: rest => annotateFrom (index + 1) rest (annotateOne s index item)

/-- The whole markPage invocation: select the items, annotate the DOM,
and return `items.map((_, index) => index)`. -/
def markPage (p : Page) (s : DomState) : List Nat × DomState :=
  let items := selectItems p
  (items.mapIdx (fun index _ => index), annotateFrom 0 items s)

/-- clearRectsAndTags (cleanup script, first IIFE): remove every node
carrying `data-voyager-rect-index` (all overlay nodes), then — for every
element matching the misspelled selector `[date-voyager-element-index]` —
remove the `data-voyager-element-index` attribute. -/
def clearRectsAndTags (s : DomState) : DomState :=
  { overlays := [],
    elemAttrs := s.elemAttrs.map (fun ea =>
      if hasA ea.attrs misspelledElemIndexAttr
      then { ea with attrs := removeA ea.attrs elemIndexAttr }
      else ea) }

/-- clearElements (cleanup script, second IIFE): remove the
`data-voyager-element-index` attribute from every element carrying it. -/
def clearElements (s : DomState) : DomState :=
  { s with elemAttrs := s.elemAttrs.map (fun ea =>
      if hasA ea.attrs elemIndexAttr
      then { ea with attrs := removeA ea.attrs elemIndexAttr }
      else ea) }

/-- The number of elements carrying the element-index attribute
(`document.querySelectorAll("[data-voyager-element-index]").length`). -/
def countTagged (s : DomState) : Nat :=
  (s.elemAttrs.filter (fun ea => hasA ea.attrs elemIndexAttr)).length

/-- The overlay containers appended by `annotateFrom index items s`, in
order: one per visible rectangle of each item. -/
def overlaysFrom (index : Nat) : List Item → List Overlay
  | [] => []
  | item :: rest => item.rects.map (mkOverlay index) ++ overlaysFrom (index + 1) rest

/-- The per-element summary of markPage's attribute writes: if the element
is the `k`-th of the selected items (by identity), its attribute map gains
the element-index attribute with value `index + k`; otherwise it is
untouched. -/
def tagAttrsFrom (index : Nat) (items : List Item) (ea : ElemAttrs) : ElemAttrs :=
  match items.findIdx? (fun it => it.element.eid == ea.eid) with
  | some k => { ea with attrs := setA ea.attrs elemIndexAttr (toString (index + k)) }
  | none => ea

/-- A point outside the bounds of the viewport; `document.elementFromPoint`
returns `null` for such points. -/
def outsideViewport (p : Page) (x y : ℚ) : Prop :=
  x < 0 ∨ vw p < x ∨ y < 0 ∨ vh p < y

instance (p : Page) (x y : ℚ) : Decidable (outsideViewport p x y) := by
  unfold outsideViewport; infer_instance

/-! ## Concrete test pages -/

/-- The root `<html>` element of the test page. -/
def htmlE : Elem :=
  { eid := 0, tagName := "HTML", role := none, ancestors := [],
    textContent := "OK", clientRects := [] }

/-- The `<body>` element of the test page. -/
def bodyE : Elem :=
  { eid := 1, tagName := "BODY", role := none, ancestors := [0],
    textContent := "OK", clientRects := [] }

/-- A visible 100×40 button at (10, 30). -/
def buttonE : Elem :=
  { eid := 2, tagName := "BUTTON", role := none, ancestors := [1, 0],
    textContent := "OK", clientRects := [{ left := 10, top := 30, width := 100, height := 40 }] }

/-- A button scrolled off-viewport: its only client rectangle's center is
outside the viewport, though the rectangle's lower-right part is on
screen. -/
def offscreenE : Elem :=
  { eid := 3, tagName := "BUTTON", role := none, ancestors := [1, 0],
    textContent := "Off", clientRects := [{ left := -200, top := -100, width := 240, height := 130 }] }

/-- An 80×40 button at (200, 5), close to the viewport top. -/
def topE : Elem :=
  { eid := 4, tagName := "BUTTON", role := none, ancestors := [1, 0],
    textContent := "Top", clientRects := [{ left := 200, top := 5, width := 80, height := 40 }] }

/-- An 800×600 page holding the two visible buttons and the off-viewport
one; `elementFromPoint` returns the button over its own rectangle, the
body elsewhere inside the viewport, and `null` outside it. -/
def samplePage : Page :=
  { docClientWidth := 800, innerWidth := 800, docClientHeight := 600, innerHeight := 600,
    elems := [htmlE, bodyE, buttonE, offscreenE, topE],
    elementFromPoint := fun x y =>
      if 10 ≤ x ∧ x ≤ 110 ∧ 30 ≤ y ∧ y ≤ 70 then some buttonE
      else if 200 ≤ x ∧ x ≤ 280 ∧ 5 ≤ y ∧ y ≤ 45 then some topE
      else if 0 ≤ x ∧ x ≤ 800 ∧ 0 ≤ y ∧ y ≤ 600 then some bodyE
      else none }

/-- The attribute state of `samplePage` before any marking: no element
carries any attribute and no overlay exists. -/
def sampleState : DomState :=
  { elemAttrs := [⟨0, []⟩, ⟨1, []⟩, ⟨2, []⟩, ⟨3, []⟩, ⟨4, []⟩], overlays := [] }

/-- The Candidate markPage builds for `buttonE` on `samplePage`. -/
def buttonItem : Item :=
  { element := buttonE,
    rects := [{ left := 10, top := 30, right := 110, bottom := 70, width := 100, height := 40 }],
    area := 4000, text := "OK", depth := 2 }

/-- The Candidate markPage builds for `topE` on `samplePage`. -/
def topItem : Item :=
  { element := topE,
    rects := [{ left := 200, top := 5, right := 280, bottom := 45, width := 80, height := 40 }],
    area := 3200, text := "Top", depth := 2 }

/-- The `i`-th of 61 small non-overlapping buttons on one row, all at DOM
depth 2. -/
def manyE (i : Nat) : Elem :=
  { eid := 10 + i, tagName := "BUTTON", role := none, ancestors := [1, 0],
    textContent := "", clientRects := [{ left := 13 * i, top := 100, width := 4 + i % 9, height := 8 }] }

/-- The 61 buttons of the dense page. -/
def capElems : List Elem := (List.range 61).map manyE

/-- A dense 800×600 page with 61 qualifying buttons, used to exercise the
cap-enforcement branch. -/
def capPage : Page :=
  { docClientWidth := 800, innerWidth := 800, docClientHeight := 600, innerHeight := 600,
    elems := [htmlE, bodyE] ++ capElems,
    elementFromPoint := fun x y =>
      match capElems.find? (fun e => e.clientRects.any (fun bb =>
          decide (bb.left ≤ x) && decide (x ≤ bb.right) &&
          decide (bb.top ≤ y) && decide (y ≤ bb.bottom))) with
      | some e => some e
      | none => if 0 ≤ x ∧ x ≤ 800 ∧ 0 ≤ y ∧ y ≤ 600 then some bodyE else none }


/-- The clipped rectangle of `buttonE` on `samplePage`. -/
def sampleBox : Box :=
  { left := 10, top := 30, right := 110, bottom := 70, width := 100, height := 40 }

/-- The single client rectangle of `offscreenE`. -/
def offRect : ClientRect :=
  { left := -200, top := -100, width := 240, height := 130 }

/-- The overlay markPage renders for `topE` on `samplePage`: the label is
placed below the box (labelTop = 40 + 2) because its top (5) is within
`labelHeight` of the viewport top. -/
def topOverlay : Overlay :=
  { left := 200, top := 5, width := 80, height := 40, labelTop := 42,
    labelText := 1, rectIndex := 1 }

/-! ## Inversion and membership lemmas for the selection pipeline -/

/-- Inversion of the per-element scan: what `toItem p e = some it` says. -/
theorem toItem_some_iff {p : Page} {e : Elem} {it : Item} :
    toItem p e = some it ↔
      isInteractive e = true ∧ visibleRects p e ≠ [] ∧
      ¬ areaOf (visibleRects p e) < MIN_AREA ∧
      it = { element := e, rects := visibleRects p e,
             area := areaOf (visibleRects p e),
             text := normText e.textContent, depth := getDepth e } := by
  unfold toItem
  by_cases h1 : isInteractive e
  case neg => simp [h1]
  case pos =>
    by_cases h2 : visibleRects p e = []
    case pos => simp [h1, h2]
    case neg =>
      have hlen : ¬ (visibleRects p e).length = 0 := by
        simpa [List.length_eq_zero] using h2
      by_cases h3 : areaOf (visibleRects p e) < MIN_AREA
      case pos => simp [h1, h2, h3, hlen]
      case neg => simp [h1, h2, h3, hlen, eq_comm]

/-- A survivor of nested-duplicate removal is one of the scanned items and
passes the `!items.some(...)` test. -/
theorem mem_removeNested {items : List Item} {x : Item} (h : x ∈ removeNested items) :
    x ∈ items ∧
      (items.any fun y =>
        containsDom y.element x.element && x.element.eid != y.element.eid) = false := by
  unfold removeNested at h
  have h2 := List.mem_filter.mp h
  simpa using h2

/-- Every finally selected item survived nested-duplicate removal. -/
theorem mem_selectItems {p : Page} {x : Item} (h : x ∈ selectItems p) :
    x ∈ removeNested (scanItems p) := by
  have h2 : x ∈ (if (removeNested (scanItems p)).length > MAX_ELEMENTS
      then ((removeNested (scanItems p)).mergeSort itemLE).take MAX_ELEMENTS
      else removeNested (scanItems p)) := h
  split at h2
  · exact (List.mem_mergeSort).mp (List.mem_of_mem_take h2)
  · exact h2

/-- Every scanned item is the image of one of the document's elements. -/
theorem mem_scanItems {p : Page} {x : Item} (h : x ∈ scanItems p) :
    toItem p x.element = some x ∧ x.element ∈ p.elems := by
  unfold scanItems at h
  obtain ⟨e, he, hx⟩ := List.mem_filterMap.mp h
  have hx2 := toItem_some_iff.mp hx
  obtain ⟨-, -, -, rfl⟩ := hx2
  exact ⟨hx, he⟩


/-- C5: for every page, the number of candidates selected (and hence
elements tagged) by a single mark-page call is at most 60. -/
theorem selected_count_le_cap (p : Page) : (selectItems p).length ≤ 60 := by
  show (if (removeNested (scanItems p)).length > MAX_ELEMENTS
      then ((removeNested (scanItems p)).mergeSort itemLE).take MAX_ELEMENTS
      else removeNested (scanItems p)).length ≤ 60
  split
  · exact List.length_take_le MAX_ELEMENTS ((removeNested (scanItems p)).mergeSort itemLE)
  · rename_i h
    simp only [MAX_ELEMENTS, Nat.not_lt, gt_iff_lt] at h
    omega

/-- Every rectangle surviving the visible-geometry pipeline has positive
clipped width and height. -/
theorem mem_visibleRects_pos {p : Page} {e : Elem} {r : Box}
    (h : r ∈ visibleRects p e) : 0 < r.width ∧ 0 < r.height := by
  unfold visibleRects at h
  have h2 := (List.mem_filter.mp h).2
  simp at h2
  exact h2

/-- C6: every selected candidate has at least one visible rectangle, all
its rectangles have positive width and height, its area is the sum of its
rectangles' areas and is at least MIN_AREA; and an element with no
surviving rectangle or total area below MIN_AREA yields no candidate. -/
theorem selected_area_floor (p : Page) :
    (∀ it ∈ selectItems p,
        it.rects ≠ [] ∧ (∀ r ∈ it.rects, 0 < r.width ∧ 0 < r.height) ∧
        it.rects = visibleRects p it.element ∧
        it.area = areaOf it.rects ∧ MIN_AREA ≤ it.area) ∧
    (∀ e : Elem, visibleRects p e = [] ∨ areaOf (visibleRects p e) < MIN_AREA →
        toItem p e = none) := by
  constructor
  · intro it hit
    have h1 := (mem_removeNested (mem_selectItems hit)).1
    obtain ⟨hsome, -⟩ := mem_scanItems h1
    obtain ⟨-, hne, hge, heq⟩ := toItem_some_iff.mp hsome
    have hrects : it.rects = visibleRects p it.element := by rw [heq]
    refine ⟨by rw [hrects]; exact hne, ?_, hrects, by rw [heq], ?_⟩
    · intro r hr
      rw [hrects] at hr
      exact mem_visibleRects_pos hr
    · have : it.area = areaOf (visibleRects p it.element) := by rw [heq]
      rw [this]
      exact le_of_not_lt hge
  · intro e he
    cases h : toItem p e with
    | none => rfl
    | some it =>
      obtain ⟨-, hne, hge, -⟩ := toItem_some_iff.mp h
      rcases he with he | he
      · exact absurd he hne
      · exact absurd he hge

section
set_option maxRecDepth 40000
attribute [local semireducible] Rat.add Rat.mul Rat.sub Rat.inv

/-- C6 witness: the sample page's first selected candidate at a concrete
input. -/
theorem selected_area_floor_witness :
    buttonItem.rects ≠ [] ∧
      (∀ r ∈ buttonItem.rects, 0 < r.width ∧ 0 < r.height) ∧
      buttonItem.rects = visibleRects samplePage buttonItem.element ∧
      buttonItem.area = areaOf buttonItem.rects ∧ MIN_AREA ≤ buttonItem.area :=
  (selected_area_floor samplePage).1 buttonItem (by decide)

end


/-- C4: no two items tagged by one mark-page call are in strict
ancestor/descendant relation: a selected item contained in another
surviving item's element is that item itself. -/
theorem no_nested_selected (p : Page) :
    (∀ x ∈ selectItems p, ∀ y ∈ selectItems p,
        containsDom y.element x.element = true → x.element.eid = y.element.eid) ∧
    (∀ x ∈ removeNested (scanItems p), ∀ y ∈ scanItems p,
        containsDom y.element x.element = true → x.element.eid = y.element.eid) := by
  have key : ∀ x ∈ removeNested (scanItems p), ∀ y ∈ scanItems p,
      containsDom y.element x.element = true → x.element.eid = y.element.eid := by
    intro x hx y hy hc
    obtain ⟨-, hall⟩ := mem_removeNested hx
    by_contra hne
    have hany : (scanItems p).any (fun y =>
        containsDom y.element x.element && x.element.eid != y.element.eid) = true :=
      List.any_eq_true.mpr ⟨y, hy, by simp [hc, hne]⟩
    rw [hany] at hall
    simp at hall
  refine ⟨?_, key⟩
  intro x hx y hy hc
  exact key x (mem_selectItems hx) y (mem_removeNested (mem_selectItems hy)).1 hc

section
set_option maxRecDepth 40000
attribute [local semireducible] Rat.add Rat.mul Rat.sub Rat.inv

/-- C4 witness: both selected items of the sample page satisfy the
no-nesting property at a concrete input. -/
theorem no_nested_selected_witness :
    containsDom buttonItem.element buttonItem.element = true ∧
    buttonItem.element.eid = buttonItem.element.eid :=
  ⟨by decide,
   (no_nested_selected samplePage).1 buttonItem (by decide) buttonItem (by decide) (by decide)⟩

end

/-- The comparator relation spelt out. -/
theorem itemLE_eq_true_iff {a b : Item} :
    itemLE a b = true ↔ a.depth < b.depth ∨ (a.depth = b.depth ∧ b.area ≤ a.area) := by
  unfold itemLE
  by_cases h : a.depth = b.depth
  · simp [h]
  · simp [h]

/-- The comparator is transitive. -/
theorem itemLE_trans (a b c : Item) (hab : itemLE a b) (hbc : itemLE b c) :
    itemLE a c := by
  rw [itemLE_eq_true_iff] at hab hbc ⊢
  rcases hab with h1 | ⟨h1, h1a⟩ <;> rcases hbc with h2 | ⟨h2, h2a⟩
  · exact Or.inl (h1.trans h2)
  · exact Or.inl (h2 ▸ h1)
  · exact Or.inl (h1 ▸ h2)
  · exact Or.inr ⟨h1.trans h2, h2a.trans h1a⟩

/-- The comparator is total. -/
theorem itemLE_total (a b : Item) : itemLE a b || itemLE b a := by
  rcases Nat.lt_trichotomy a.depth b.depth with h | h | h
  · simp [itemLE_eq_true_iff, h]
  · rcases le_total a.area b.area with h2 | h2 <;> simp [itemLE_eq_true_iff, h, h2]
  · simp [itemLE_eq_true_iff, h]

/-- C3: when more than 60 candidates survive, the selection is the first
60 of the stable merge sort under the depth-then-area comparator; the
result has exactly 60 items, is sorted by ascending depth with ties by
descending area, comparator-ordered pairs keep their relative order
(stability), and with all depths equal every dropped candidate's area is
at most every kept candidate's area. -/
theorem cap_sort_prioritization (p : Page)
    (hlen : (removeNested (scanItems p)).length > MAX_ELEMENTS) :
    selectItems p = ((removeNested (scanItems p)).mergeSort itemLE).take MAX_ELEMENTS ∧
    (selectItems p).length = MAX_ELEMENTS ∧
    (selectItems p).Pairwise (fun a b =>
        a.depth < b.depth ∨ (a.depth = b.depth ∧ b.area ≤ a.area)) ∧
    (∀ a b : Item, List.Sublist [a, b] (removeNested (scanItems p)) → itemLE a b = true →
        List.Sublist [a, b] ((removeNested (scanItems p)).mergeSort itemLE)) ∧
    ((∀ a ∈ removeNested (scanItems p), ∀ b ∈ removeNested (scanItems p),
        a.depth = b.depth) →
      ∀ x ∈ selectItems p, ∀ y ∈ removeNested (scanItems p), y ∉ selectItems p →
        y.area ≤ x.area) := by
  have hsel : selectItems p =
      ((removeNested (scanItems p)).mergeSort itemLE).take MAX_ELEMENTS := by
    show (if (removeNested (scanItems p)).length > MAX_ELEMENTS
        then ((removeNested (scanItems p)).mergeSort itemLE).take MAX_ELEMENTS
        else removeNested (scanItems p)) = _
    rw [if_pos hlen]
  have hsorted : ((removeNested (scanItems p)).mergeSort itemLE).Pairwise
      (fun a b => itemLE a b) :=
    List.sorted_mergeSort itemLE_trans itemLE_total (removeNested (scanItems p))
  refine ⟨hsel, ?_, ?_, ?_, ?_⟩
  · rw [hsel, List.length_take, List.length_mergeSort]
    omega
  · rw [hsel]
    have h1 : (((removeNested (scanItems p)).mergeSort itemLE).take
        MAX_ELEMENTS).Pairwise (fun a b => itemLE a b) :=
      hsorted.sublist (List.take_sublist _ _)
    exact h1.imp (fun h => itemLE_eq_true_iff.mp h)
  · intro a b hab hle
    exact List.pair_sublist_mergeSort itemLE_trans itemLE_total hle hab
  · intro hdep x hx y hy hyn
    rw [hsel] at hx hyn
    have hym : y ∈ (removeNested (scanItems p)).mergeSort itemLE :=
      List.mem_mergeSort.mpr hy
    have hsplit := List.take_append_drop MAX_ELEMENTS
      ((removeNested (scanItems p)).mergeSort itemLE)
    have hyd : y ∈ ((removeNested (scanItems p)).mergeSort itemLE).drop MAX_ELEMENTS := by
      rcases List.mem_append.mp (by rw [hsplit]; exact hym) with h | h
      · exact absurd h hyn
      · exact h
    have hpw := hsorted
    rw [← hsplit] at hpw
    have hall := (List.pairwise_append.mp hpw).2.2
    have hxy : itemLE x y = true := hall x hx y hyd
    have hxm : x ∈ removeNested (scanItems p) :=
      List.mem_mergeSort.mp (List.mem_of_mem_take hx)
    have hde : x.depth = y.depth := hdep x hxm y hy
    rcases itemLE_eq_true_iff.mp hxy with h | ⟨-, h⟩
    · omega
    · exact h

section
set_option maxRecDepth 400000
attribute [local semireducible] Rat.add Rat.mul Rat.sub Rat.inv

/-- C3 witness: the dense page's 61 surviving candidates trigger the
cap-enforcement branch. -/
theorem cap_sort_prioritization_witness :
    (removeNested (scanItems capPage)).length > MAX_ELEMENTS ∧
    (selectItems capPage =
        ((removeNested (scanItems capPage)).mergeSort itemLE).take MAX_ELEMENTS ∧
      (selectItems capPage).length = MAX_ELEMENTS ∧
      (selectItems capPage).Pairwise (fun a b =>
          a.depth < b.depth ∨ (a.depth = b.depth ∧ b.area ≤ a.area)) ∧
      (∀ a b : Item, List.Sublist [a, b] (removeNested (scanItems capPage)) →
          itemLE a b = true →
          List.Sublist [a, b] ((removeNested (scanItems capPage)).mergeSort itemLE)) ∧
      ((∀ a ∈ removeNested (scanItems capPage), ∀ b ∈ removeNested (scanItems capPage),
          a.depth = b.depth) →
        ∀ x ∈ selectItems capPage, ∀ y ∈ removeNested (scanItems capPage),
          y ∉ selectItems capPage → y.area ≤ x.area)) :=
  ⟨by decide, cap_sort_prioritization capPage (by decide)⟩

end


/-- C7: every rectangle a candidate keeps comes from one of its client
rectangles that passed the center-point occlusion test, clipped to the
viewport (left/top floored at 0, right/bottom capped at the viewport
size), with positive clipped width and height. -/
theorem visible_rect_pipeline (p : Page) (e : Elem) (r : Box)
    (h : r ∈ visibleRects p e) :
    ∃ bb ∈ e.clientRects,
      keepRect p e bb = true ∧
      (∃ elAtCenter,
          p.elementFromPoint (bb.left + bb.width / 2) (bb.top + bb.height / 2) =
            some elAtCenter ∧
          (elAtCenter.eid = e.eid ∨ containsDom e elAtCenter = true)) ∧
      r = clipRect (vw p) (vh p) bb ∧
      r.left = max 0 bb.left ∧ r.top = max 0 bb.top ∧
      r.right = min (vw p) bb.right ∧ r.bottom = min (vh p) bb.bottom ∧
      r.width = r.right - r.left ∧ r.height = r.bottom - r.top ∧
      0 < r.width ∧ 0 < r.height := by
  unfold visibleRects at h
  obtain ⟨hm, hpos⟩ := List.mem_filter.mp h
  obtain ⟨bb, hbb, rfl⟩ := List.mem_map.mp hm
  obtain ⟨hbbmem, hkeep⟩ := List.mem_filter.mp hbb
  have hkeep2 : (match p.elementFromPoint (bb.left + bb.width / 2)
      (bb.top + bb.height / 2) with
    | none => false
    | some elAtCenter => elAtCenter.eid == e.eid || containsDom e elAtCenter) = true :=
    hkeep
  have hcen : ∃ elAtCenter,
      p.elementFromPoint (bb.left + bb.width / 2) (bb.top + bb.height / 2) =
        some elAtCenter ∧
      (elAtCenter.eid = e.eid ∨ containsDom e elAtCenter = true) := by
    rcases hq : p.elementFromPoint (bb.left + bb.width / 2) (bb.top + bb.height / 2)
      with _ | el
    · rw [hq] at hkeep2
      simp at hkeep2
    · rw [hq] at hkeep2
      simp at hkeep2
      rcases hkeep2 with h2 | h2
      · exact ⟨el, rfl, Or.inl h2⟩
      · exact ⟨el, rfl, Or.inr h2⟩
  simp at hpos
  exact ⟨bb, hbbmem, hkeep, hcen, rfl, rfl, rfl, rfl, rfl, rfl, rfl,
    hpos.1, hpos.2⟩

section
set_option maxRecDepth 40000
attribute [local semireducible] Rat.add Rat.mul Rat.sub Rat.inv

/-- C7 witness: the sample button's kept rectangle at a concrete input. -/
theorem visible_rect_pipeline_witness :
    ∃ bb ∈ buttonE.clientRects,
      keepRect samplePage buttonE bb = true ∧
      (∃ elAtCenter,
          samplePage.elementFromPoint (bb.left + bb.width / 2) (bb.top + bb.height / 2) =
            some elAtCenter ∧
          (elAtCenter.eid = buttonE.eid ∨ containsDom buttonE elAtCenter = true)) ∧
      sampleBox = clipRect (vw samplePage) (vh samplePage) bb ∧
      sampleBox.left = max 0 bb.left ∧ sampleBox.top = max 0 bb.top ∧
      sampleBox.right = min (vw samplePage) bb.right ∧
      sampleBox.bottom = min (vh samplePage) bb.bottom ∧
      sampleBox.width = sampleBox.right - sampleBox.left ∧
      sampleBox.height = sampleBox.bottom - sampleBox.top ∧
      0 < sampleBox.width ∧ 0 < sampleBox.height :=
  visible_rect_pipeline samplePage buttonE sampleBox (by decide)

end

/-- C9: a client rectangle whose center yields no element from
`elementFromPoint` is discarded; if the query returns `null` outside the
viewport and all of an element's rectangle centers lie outside the
viewport, the element yields no candidate and is never selected. -/
theorem center_off_viewport_discard (p : Page) (e : Elem) :
    (∀ bb : ClientRect,
        p.elementFromPoint (bb.left + bb.width / 2) (bb.top + bb.height / 2) = none →
        keepRect p e bb = false) ∧
    ((∀ x y : ℚ, outsideViewport p x y → p.elementFromPoint x y = none) →
      (∀ bb ∈ e.clientRects,
          outsideViewport p (bb.left + bb.width / 2) (bb.top + bb.height / 2)) →
      toItem p e = none ∧ ∀ it ∈ selectItems p, it.element ≠ e) := by
  have hdrop : ∀ bb : ClientRect,
      p.elementFromPoint (bb.left + bb.width / 2) (bb.top + bb.height / 2) = none →
      keepRect p e bb = false := by
    intro bb hnone
    show (match p.elementFromPoint (bb.left + bb.width / 2) (bb.top + bb.height / 2) with
      | none => false
      | some elAtCenter => elAtCenter.eid == e.eid || containsDom e elAtCenter) = false
    rw [hnone]
  refine ⟨hdrop, fun horacle hcenters => ?_⟩
  have hvis : visibleRects p e = [] := by
    unfold visibleRects
    have hf : e.clientRects.filter (keepRect p e) = [] := by
      rw [List.filter_eq_nil_iff]
      intro bb hbb
      have h1 := hdrop bb (horacle _ _ (hcenters bb hbb))
      simp [h1]
    rw [hf]
    rfl
  have hnone : toItem p e = none := by
    cases h : toItem p e with
    | none => rfl
    | some it =>
      obtain ⟨-, hne, -, -⟩ := toItem_some_iff.mp h
      exact absurd hvis hne
  refine ⟨hnone, fun it hit heq => ?_⟩
  have h1 := (mem_removeNested (mem_selectItems hit)).1
  obtain ⟨hsome, -⟩ := mem_scanItems h1
  rw [heq, hnone] at hsome
  exact Option.noConfusion hsome

section
set_option maxRecDepth 40000
attribute [local semireducible] Rat.add Rat.mul Rat.sub Rat.inv

/-- C9 witness: the off-viewport button of the sample page is discarded:
its only rectangle's center is outside the viewport, the rectangle is
dropped, no candidate is built, and no selected item is that element. -/
theorem center_off_viewport_discard_witness :
    keepRect samplePage offscreenE offRect = false ∧
    (toItem samplePage offscreenE = none ∧
      ∀ it ∈ selectItems samplePage, it.element ≠ offscreenE) :=
  ⟨(center_off_viewport_discard samplePage offscreenE).1 offRect (by decide),
   (center_off_viewport_discard samplePage offscreenE).2
     (by
       intro x y hxy
       have hvw : vw samplePage = 800 := by decide
       have hvh : vh samplePage = 600 := by decide
       unfold outsideViewport at hxy
       rw [hvw, hvh] at hxy
       show (if 10 ≤ x ∧ x ≤ 110 ∧ 30 ≤ y ∧ y ≤ 70 then some buttonE
         else if 200 ≤ x ∧ x ≤ 280 ∧ 5 ≤ y ∧ y ≤ 45 then some topE
         else if 0 ≤ x ∧ x ≤ 800 ∧ 0 ≤ y ∧ y ≤ 600 then some bodyE
         else none) = none
       split_ifs with h1 h2 h3
       · obtain ⟨a1, a2, a3, a4⟩ := h1
         rcases hxy with h | h | h | h <;> linarith
       · obtain ⟨a1, a2, a3, a4⟩ := h2
         rcases hxy with h | h | h | h <;> linarith
       · obtain ⟨a1, a2, a3, a4⟩ := h3
         rcases hxy with h | h | h | h <;> linarith
       · rfl)
     (by decide)⟩

end

/-- The overlays of `annotateFrom` are the initial overlays followed by
one overlay per rectangle of each item, in order. -/
theorem annotateFrom_overlays :
    ∀ (items : List Item) (index : Nat) (s : DomState),
      (annotateFrom index items s).overlays = s.overlays ++ overlaysFrom index items
  | [], _, _ => by simp [annotateFrom, overlaysFrom]
  | item :: rest, index, s => by
    rw [annotateFrom, annotateFrom_overlays rest (index + 1) (annotateOne s index item)]
    simp [annotateOne, overlaysFrom]

/-- Every rendered overlay is `mkOverlay` of some rectangle of some item. -/
theorem mem_overlaysFrom {o : Overlay} :
    ∀ {index : Nat} {items : List Item}, o ∈ overlaysFrom index items →
      ∃ it, it ∈ items ∧ ∃ bbox, bbox ∈ it.rects ∧ ∃ j, o = mkOverlay j bbox := by
  intro index items
  induction items generalizing index with
  | nil => intro h; simp [overlaysFrom] at h
  | cons item rest ih =>
    intro h
    rw [overlaysFrom] at h
    rcases List.mem_append.mp h with h | h
    · obtain ⟨bbox, hb, rfl⟩ := List.mem_map.mp h
      exact ⟨item, by simp, bbox, hb, index, rfl⟩
    · obtain ⟨it, hit, rest2⟩ := ih h
      exact ⟨it, by simp [hit], rest2⟩

/-- Every rectangle of a selected item has positive width and height. -/
theorem mem_selectItems_rects_pos {p : Page} {it : Item} {r : Box}
    (hit : it ∈ selectItems p) (hr : r ∈ it.rects) :
    0 < r.width ∧ 0 < r.height := by
  have h1 := (mem_removeNested (mem_selectItems hit)).1
  obtain ⟨hsome, -⟩ := mem_scanItems h1
  obtain ⟨-, -, -, heq⟩ := toItem_some_iff.mp hsome
  rw [heq] at hr
  exact mem_visibleRects_pos hr

/-- C8: for every rendered overlay, the label is placed below the box
(labelTop = height + 2) exactly when the box's top is within labelHeight
of the viewport top, and above the box (labelTop = -labelHeight) exactly
otherwise. -/
theorem label_placement (p : Page) (s : DomState) (hov : s.overlays = []) :
    ∀ o ∈ (markPage p s).2.overlays,
      (o.labelTop = o.height + 2 ↔ o.top < labelHeight) ∧
      (o.labelTop = -labelHeight ↔ labelHeight ≤ o.top) := by
  intro o ho
  have hov2 : (markPage p s).2.overlays = overlaysFrom 0 (selectItems p) := by
    show (annotateFrom 0 (selectItems p) s).overlays = _
    rw [annotateFrom_overlays, hov, List.nil_append]
  rw [hov2] at ho
  obtain ⟨it, hit, bbox, hb, j, rfl⟩ := mem_overlaysFrom ho
  have hpos : 0 < bbox.height := (mem_selectItems_rects_pos hit hb).2
  have hlh : labelHeight = 20 := rfl
  show (labelTopFor bbox = bbox.height + 2 ↔ bbox.top < labelHeight) ∧
    (labelTopFor bbox = -labelHeight ↔ labelHeight ≤ bbox.top)
  unfold labelTopFor
  by_cases htop : bbox.top < labelHeight
  · rw [if_pos htop]
    constructor
    · simp [htop]
    · constructor
      · intro h
        rw [hlh] at h
        linarith
      · intro h
        rw [hlh] at htop h
        linarith
  · rw [if_neg htop]
    constructor
    · constructor
      · intro h
        rw [hlh] at h
        linarith
      · intro h
        exact absurd h htop
    · simp [le_of_not_lt htop]

section
set_option maxRecDepth 40000
attribute [local semireducible] Rat.add Rat.mul Rat.sub Rat.inv

/-- C8 witness: the overlay rendered for the near-top button on the
sample page carries its label below the box. -/
theorem label_placement_witness :
    (topOverlay.labelTop = topOverlay.height + 2 ↔ topOverlay.top < labelHeight) ∧
    (topOverlay.labelTop = -labelHeight ↔ labelHeight ≤ topOverlay.top) :=
  label_placement samplePage sampleState rfl topOverlay (by decide)

end


/-! ## Attribute-map lemmas -/

/-- An attribute map without the key answers `none` for it. -/
theorem getA_of_hasA_false {attrs : List (String × String)} {k : String}
    (h : hasA attrs k = false) : getA attrs k = none := by
  unfold hasA at h
  rw [List.any_eq_false] at h
  unfold getA
  rw [List.find?_eq_none.mpr h]
  rfl

/-- Looking up the written key after `setA`'s overwrite pass. -/
theorem find?_map_set (attrs : List (String × String)) (k v : String)
    (h : attrs.any (fun kv => kv.1 == k) = true) :
    (attrs.map (fun kv => if kv.1 == k then (k, v) else kv)).find?
      (fun kv => kv.1 == k) = some (k, v) := by
  induction attrs with
  | nil => simp at h
  | cons kv l ih =>
    rw [List.any_cons] at h
    rw [List.map_cons]
    by_cases hk : (kv.1 == k) = true
    · rw [if_pos hk]
      rw [@List.find?_cons_of_pos _ (fun kv => kv.1 == k) (k, v) _ (by simp)]
    · rw [if_neg hk]
      rw [@List.find?_cons_of_neg _ (fun kv => kv.1 == k) kv _ hk]
      apply ih
      rcases Bool.or_eq_true_iff.mp h with h2 | h2
      · exact absurd h2 hk
      · exact h2

/-- Looking up the written key after `setA`'s append pass. -/
theorem find?_append_set (attrs : List (String × String)) (k v : String)
    (h : attrs.any (fun kv => kv.1 == k) = false) :
    (attrs ++ [(k, v)]).find? (fun kv => kv.1 == k) = some (k, v) := by
  rw [List.any_eq_false] at h
  rw [List.find?_append, List.find?_eq_none.mpr h]
  simp

/-- `setA` writes the requested value under the requested key. -/
theorem getA_setA_same (attrs : List (String × String)) (k v : String) :
    getA (setA attrs k v) k = some v := by
  unfold setA hasA
  by_cases h : attrs.any (fun kv => kv.1 == k) = true
  · rw [if_pos h]
    unfold getA
    rw [find?_map_set attrs k v h]
    rfl
  · rw [if_neg h]
    unfold getA
    rw [find?_append_set attrs k v (Bool.not_eq_true _ ▸ Bool.of_not_eq_true h)]
    rfl

/-- `setA`'s overwrite pass leaves other keys' lookups unchanged. -/
theorem find?_map_set_ne (l : List (String × String)) (k v k2 : String)
    (hne2 : ¬ (k = k2)) :
    (l.map (fun kv => if kv.1 == k then (k, v) else kv)).find? (fun kv => kv.1 == k2) =
      l.find? (fun kv => kv.1 == k2) := by
  induction l with
  | nil => rfl
  | cons kv l ih =>
    rw [List.map_cons]
    by_cases hk : (kv.1 == k) = true
    · have hkeq : kv.1 = k := by simpa using hk
      rw [if_pos hk]
      rw [@List.find?_cons_of_neg _ (fun kv => kv.1 == k2) (k, v) _ (by simp [hne2])]
      rw [@List.find?_cons_of_neg _ (fun kv => kv.1 == k2) kv _ (by simp [hkeq, hne2])]
      exact ih
    · rw [if_neg hk]
      by_cases hp : (kv.1 == k2) = true
      · rw [@List.find?_cons_of_pos _ (fun kv => kv.1 == k2) kv _ hp,
          @List.find?_cons_of_pos _ (fun kv => kv.1 == k2) kv _ hp]
      · rw [@List.find?_cons_of_neg _ (fun kv => kv.1 == k2) kv _ hp,
          @List.find?_cons_of_neg _ (fun kv => kv.1 == k2) kv _ hp]
        exact ih

/-- `setA` leaves every other key unchanged. -/
theorem getA_setA_ne (attrs : List (String × String)) (k v k2 : String)
    (hne : k2 ≠ k) : getA (setA attrs k v) k2 = getA attrs k2 := by
  have hne2 : ¬ (k = k2) := fun h => hne h.symm
  unfold setA hasA getA
  split
  · congr 1
    exact find?_map_set_ne attrs k v k2 hne2
  · congr 1
    rw [List.find?_append]
    have h1 : (([((k, v))] : List (String × String)).find? (fun kv => kv.1 == k2)) = none := by
      simp [hne2]
    rw [h1]
    simp

/-- `setA` makes the key present. -/
theorem hasA_setA_same (attrs : List (String × String)) (k v : String) :
    hasA (setA attrs k v) k = true := by
  have h := getA_setA_same attrs k v
  unfold getA at h
  unfold hasA
  rw [List.any_eq_true]
  rcases hf : (setA attrs k v).find? (fun kv => kv.1 == k) with _ | kv0
  · rw [hf] at h
    simp at h
  · have hp := List.find?_some hf
    exact ⟨kv0, List.mem_of_find?_eq_some hf, hp⟩

/-- Tagging never changes an element's identity. -/
theorem tagAttrsFrom_eid (index : Nat) (items : List Item) (ea : ElemAttrs) :
    (tagAttrsFrom index items ea).eid = ea.eid := by
  unfold tagAttrsFrom
  rcases h : items.findIdx? (fun it => it.element.eid == ea.eid) with _ | k <;>
    rw [h]

/-- `tagAttrsFrom` when the element matches no item. -/
theorem tagAttrsFrom_eq_none {index : Nat} {items : List Item} {ea : ElemAttrs}
    (h : items.findIdx? (fun it => it.element.eid == ea.eid) = none) :
    tagAttrsFrom index items ea = ea := by
  unfold tagAttrsFrom
  rw [h]

/-- `tagAttrsFrom` when the element matches the `k`-th item. -/
theorem tagAttrsFrom_eq_some {index k : Nat} {items : List Item} {ea : ElemAttrs}
    (h : items.findIdx? (fun it => it.element.eid == ea.eid) = some k) :
    tagAttrsFrom index items ea =
      { ea with attrs := setA ea.attrs elemIndexAttr (toString (index + k)) } := by
  unfold tagAttrsFrom
  rw [h]

/-- The attribute maps after `annotateFrom`: every element matching the
`k`-th item gains the element-index attribute with value `index + k`;
every other element is untouched. -/
theorem annotateFrom_elemAttrs :
    ∀ (items : List Item) (index : Nat) (s : DomState),
      (items.map (fun it => it.element.eid)).Nodup →
      (annotateFrom index items s).elemAttrs =
        s.elemAttrs.map (tagAttrsFrom index items)
  | [], index, s, _ => by
    show s.elemAttrs = s.elemAttrs.map (tagAttrsFrom index [])
    have h : s.elemAttrs.map (tagAttrsFrom index []) = s.elemAttrs.map (fun ea => ea) := rfl
    rw [h]
    simp
  | item :: rest, index, s, hnodup => by
    have hlist : (item.element.eid :: rest.map (fun it => it.element.eid)).Nodup := by
      simpa using hnodup
    have hnotmem : item.element.eid ∉ rest.map (fun it => it.element.eid) :=
      (List.nodup_cons.mp hlist).1
    have hnr : (rest.map (fun it => it.element.eid)).Nodup :=
      (List.nodup_cons.mp hlist).2
    rw [annotateFrom]
    rw [annotateFrom_elemAttrs rest (index + 1) (annotateOne s index item) hnr]
    show ((setElemAttr s.elemAttrs item.element.eid elemIndexAttr
        (toString index)).map (tagAttrsFrom (index + 1) rest)) =
      s.elemAttrs.map (tagAttrsFrom index (item :: rest))
    unfold setElemAttr
    rw [List.map_map]
    apply List.map_congr_left
    intro ea _
    show tagAttrsFrom (index + 1) rest
        (if ea.eid == item.element.eid
         then { ea with attrs := setA ea.attrs elemIndexAttr (toString index) }
         else ea) =
      tagAttrsFrom index (item :: rest) ea
    by_cases he : (ea.eid == item.element.eid) = true
    · have heeq : ea.eid = item.element.eid := by simpa using he
      rw [if_pos he]
      have hfr : rest.findIdx? (fun it => it.element.eid == ea.eid) = none := by
        rw [List.findIdx?_eq_none_iff]
        intro it2 hit2
        have hne : it2.element.eid ≠ ea.eid := by
          intro hcontra
          exact hnotmem (heeq ▸ hcontra ▸ List.mem_map_of_mem _ hit2)
        simpa using hne
      have hfr2 : rest.findIdx? (fun it => it.element.eid ==
          ({ ea with attrs := setA ea.attrs elemIndexAttr (toString index) } : ElemAttrs).eid) =
          none := hfr
      have hhead : (item.element.eid == ea.eid) = true := by simp [heeq]
      have hsome : (item :: rest).findIdx? (fun it => it.element.eid == ea.eid) = some 0 := by
        rw [List.findIdx?_cons, if_pos hhead]
      rw [tagAttrsFrom_eq_none hfr2, tagAttrsFrom_eq_some hsome, Nat.add_zero]
    · have hhead : ¬ ((item.element.eid == ea.eid) = true) := by
        intro hcontra
        exact he (by simp [by simpa using hcontra])
      rw [if_neg he]
      have hcons : (item :: rest).findIdx? (fun it => it.element.eid == ea.eid) =
          Option.map (fun k => k + (0 + 1))
            (rest.findIdx? (fun it => it.element.eid == ea.eid)) := by
        rw [List.findIdx?_cons, if_neg hhead, List.findIdx?_start_succ]
      rcases hf : rest.findIdx? (fun it => it.element.eid == ea.eid) with _ | kk
      · have h2 : (item :: rest).findIdx? (fun it => it.element.eid == ea.eid) = none := by
          rw [hcons, hf]
          rfl
        rw [tagAttrsFrom_eq_none hf, tagAttrsFrom_eq_none h2]
      · have h2 : (item :: rest).findIdx? (fun it => it.element.eid == ea.eid) =
            some (kk + (0 + 1)) := by
          rw [hcons, hf]
          rfl
        rw [tagAttrsFrom_eq_some hf, tagAttrsFrom_eq_some h2]
        have harith : index + 1 + kk = index + (kk + (0 + 1)) := by omega
        rw [harith]

/-- The scanned items' element identities form a subsequence of the
document's element identities. -/
theorem filterMap_toItem_eids_sublist (p : Page) :
    ∀ l : List Elem,
      List.Sublist ((l.filterMap (toItem p)).map (fun it => it.element.eid))
        (l.map (fun e => e.eid))
  | [] => by simp
  | e :: l => by
    rw [List.filterMap_cons]
    rcases h : toItem p e with _ | it
    · rw [List.map_cons]
      exact (filterMap_toItem_eids_sublist p l).cons e.eid
    · obtain ⟨-, -, -, heq⟩ := toItem_some_iff.mp h
      have helem : it.element = e := by rw [heq]
      rw [List.map_cons, List.map_cons, helem]
      exact (filterMap_toItem_eids_sublist p l).cons₂ e.eid

/-- With pairwise-distinct document element identities, the selected
items' element identities are pairwise distinct. -/
theorem selectItems_eids_nodup {p : Page}
    (h : (p.elems.map (fun e => e.eid)).Nodup) :
    ((selectItems p).map (fun it => it.element.eid)).Nodup := by
  have h1 : ((scanItems p).map (fun it => it.element.eid)).Nodup :=
    (filterMap_toItem_eids_sublist p p.elems).nodup h
  have h2 : ((removeNested (scanItems p)).map (fun it => it.element.eid)).Nodup :=
    ((List.filter_sublist _).map _).nodup h1
  have h3 : (((removeNested (scanItems p)).mergeSort itemLE).map
      (fun it => it.element.eid)).Nodup :=
    (((List.mergeSort_perm _ _).map _).nodup_iff).mpr h2
  have h4 : selectItems p = (if (removeNested (scanItems p)).length > MAX_ELEMENTS
      then ((removeNested (scanItems p)).mergeSort itemLE).take MAX_ELEMENTS
      else removeNested (scanItems p)) := rfl
  rw [h4]
  split
  · exact ((List.take_sublist _ _).map _).nodup h3
  · exact h2

/-- In a list with pairwise-distinct identities, searching the identity
of the `i`-th entry finds exactly index `i`. -/
theorem findIdx?_get_eq (items : List Item) (i : Nat) (hi : i < items.length)
    (hnodup : (items.map (fun it => it.element.eid)).Nodup) :
    items.findIdx? (fun it => it.element.eid == (items.get ⟨i, hi⟩).element.eid) =
      some i := by
  rw [List.findIdx?_eq_some_iff_getElem]
  refine ⟨hi, by simp, ?_⟩
  intro j hji
  have hj : j < items.length := Nat.lt_trans hji hi
  simp only [Bool.not_eq_true, beq_eq_false_iff_ne, ne_eq, List.get_eq_getElem]
  intro hcontra
  have hmj : j < (items.map (fun it => it.element.eid)).length := by
    simpa using hj
  have hmi : i < (items.map (fun it => it.element.eid)).length := by
    simpa using hi
  have h1 : (items.map (fun it => it.element.eid))[j] =
      (items.map (fun it => it.element.eid))[i] := by
    simpa using hcontra
  have h2 : j = i := (List.Nodup.getElem_inj_iff hnodup).mp h1
  omega

/-- One overlay is appended per rectangle of each annotated item. -/
theorem overlaysFrom_length :
    ∀ (index : Nat) (items : List Item),
      (overlaysFrom index items).length =
        ((items.map (fun it => it.rects.length)).sum)
  | _, [] => rfl
  | index, item :: rest => by
    rw [overlaysFrom]
    simp [overlaysFrom_length (index + 1) rest]

/-- C10: markPage only appends overlay nodes (one per visible rectangle
of each selected item, each carrying the rectangle-index attribute by
construction) and writes one element-index attribute on each selected
element; the document's element list and every non-selected element's
attributes are untouched, and the write touches no other attribute key. -/
theorem markPage_frame_effect (p : Page) (s : DomState)
    (hnodup : (p.elems.map (fun e => e.eid)).Nodup) :
    (markPage p s).2.overlays = s.overlays ++ overlaysFrom 0 (selectItems p) ∧
    (overlaysFrom 0 (selectItems p)).length =
      ((selectItems p).map (fun it => it.rects.length)).sum ∧
    (markPage p s).2.elemAttrs = s.elemAttrs.map (tagAttrsFrom 0 (selectItems p)) ∧
    (markPage p s).2.elemAttrs.map (fun ea => ea.eid) =
      s.elemAttrs.map (fun ea => ea.eid) ∧
    (∀ ea : ElemAttrs,
        (∀ it ∈ selectItems p, it.element.eid ≠ ea.eid) →
        tagAttrsFrom 0 (selectItems p) ea = ea) ∧
    (∀ (attrs : List (String × String)) (v k2 : String), k2 ≠ elemIndexAttr →
        getA (setA attrs elemIndexAttr v) k2 = getA attrs k2) := by
  have hsn := selectItems_eids_nodup hnodup
  have hshape : (markPage p s).2.elemAttrs =
      s.elemAttrs.map (tagAttrsFrom 0 (selectItems p)) :=
    annotateFrom_elemAttrs (selectItems p) 0 s hsn
  refine ⟨?_, overlaysFrom_length 0 (selectItems p), hshape, ?_, ?_, ?_⟩
  · exact annotateFrom_overlays (selectItems p) 0 s
  · rw [hshape, List.map_map]
    apply List.map_congr_left
    intro ea _
    exact tagAttrsFrom_eid 0 (selectItems p) ea
  · intro ea hea
    apply tagAttrsFrom_eq_none
    rw [List.findIdx?_eq_none_iff]
    intro it hit
    simpa using hea it hit
  · intro attrs v k2 hk2
    exact getA_setA_ne attrs elemIndexAttr v k2 hk2

section
set_option maxRecDepth 40000
attribute [local semireducible] Rat.add Rat.mul Rat.sub Rat.inv

/-- C10 witness: the frame effect at the concrete sample page. -/
theorem markPage_frame_effect_witness :
    (markPage samplePage sampleState).2.overlays =
      sampleState.overlays ++ overlaysFrom 0 (selectItems samplePage) ∧
    (overlaysFrom 0 (selectItems samplePage)).length =
      ((selectItems samplePage).map (fun it => it.rects.length)).sum ∧
    (markPage samplePage sampleState).2.elemAttrs =
      sampleState.elemAttrs.map (tagAttrsFrom 0 (selectItems samplePage)) ∧
    (markPage samplePage sampleState).2.elemAttrs.map (fun ea => ea.eid) =
      sampleState.elemAttrs.map (fun ea => ea.eid) ∧
    (∀ ea : ElemAttrs,
        (∀ it ∈ selectItems samplePage, it.element.eid ≠ ea.eid) →
        tagAttrsFrom 0 (selectItems samplePage) ea = ea) ∧
    (∀ (attrs : List (String × String)) (v k2 : String), k2 ≠ elemIndexAttr →
        getA (setA attrs elemIndexAttr v) k2 = getA attrs k2) :=
  markPage_frame_effect samplePage sampleState (by decide)

end

/-- `items.map((_, index) => index)` lists the positions `0..N-1`. -/
theorem mapIdx_fun_index :
    ∀ (l : List Item) (g : Nat → Nat),
      (l.mapIdx (fun index _ => g index)) = (List.range l.length).map g
  | [], _ => rfl
  | a :: l, g => by
    rw [List.mapIdx_cons, mapIdx_fun_index l (fun i => g (i + 1)), List.length_cons,
      List.range_succ_eq_map, List.map_cons, List.map_map]
    rfl

/-- Counting the entries of a duplicate-free list that lie in a
duplicate-free sublist of it. -/
theorem countP_mem_eq_length (eids sub : List Nat) (hsub : ∀ x ∈ sub, x ∈ eids)
    (hnodup : eids.Nodup) (hsubnodup : sub.Nodup) :
    eids.countP (fun x => sub.any (fun y => y == x)) = sub.length := by
  rw [List.countP_eq_length_filter]
  have hperm : List.Perm (eids.filter (fun x => sub.any (fun y => y == x))) sub := by
    apply (List.perm_ext_iff_of_nodup (hnodup.filter _) hsubnodup).mpr
    intro a
    rw [List.mem_filter]
    constructor
    · rintro ⟨-, ha⟩
      obtain ⟨y, hy, hya⟩ := List.any_eq_true.mp ha
      have hyeq : y = a := by simpa using hya
      exact hyeq ▸ hy
    · intro ha
      exact ⟨hsub a ha, List.any_eq_true.mpr ⟨a, ha, by simp⟩⟩
  exact hperm.length_eq

/-- C2: with no element tagged beforehand, markPage returns `0..N-1` for
the N selected candidates, exactly N elements carry the element-index
attribute afterwards, the element at each selected position `i` carries
value `i`, and the multiset of attribute values is exactly
`{0, ..., N-1}` (as strings). -/
theorem markPage_index_bijection (p : Page) (s : DomState)
    (hnodup : (p.elems.map (fun e => e.eid)).Nodup)
    (heids : s.elemAttrs.map (fun ea => ea.eid) = p.elems.map (fun e => e.eid))
    (hclean : ∀ ea ∈ s.elemAttrs, hasA ea.attrs elemIndexAttr = false) :
    (markPage p s).1 = List.range (selectItems p).length ∧
    countTagged (markPage p s).2 = (selectItems p).length ∧
    (∀ i (hi : i < (selectItems p).length),
        ∃ ea, ea ∈ (markPage p s).2.elemAttrs ∧
          ea.eid = ((selectItems p).get ⟨i, hi⟩).element.eid ∧
          getA ea.attrs elemIndexAttr = some (toString i)) ∧
    List.Perm
      ((markPage p s).2.elemAttrs.filterMap (fun ea => getA ea.attrs elemIndexAttr))
      ((List.range (selectItems p).length).map (fun i => toString i)) := by
  have hsn := selectItems_eids_nodup hnodup
  have hshape : (markPage p s).2.elemAttrs =
      s.elemAttrs.map (tagAttrsFrom 0 (selectItems p)) :=
    annotateFrom_elemAttrs (selectItems p) 0 s hsn
  have hmemel : ∀ it ∈ selectItems p, it.element ∈ p.elems := fun it hit =>
    (mem_scanItems ((mem_removeNested (mem_selectItems hit)).1)).2
  have hsubeids : ∀ x ∈ (selectItems p).map (fun it => it.element.eid),
      x ∈ p.elems.map (fun e => e.eid) := by
    intro x hx
    obtain ⟨it, hit, rfl⟩ := List.mem_map.mp hx
    exact List.mem_map_of_mem _ (hmemel it hit)
  refine ⟨?_, ?_, ?_, ?_⟩
  · show (selectItems p).mapIdx (fun index _ => index) = _
    have h := mapIdx_fun_index (selectItems p) (fun i => i)
    rw [List.map_id'] at h
    exact h
  · show ((markPage p s).2.elemAttrs.filter
      (fun ea => hasA ea.attrs elemIndexAttr)).length = _
    rw [hshape, List.filter_map, List.length_map, ← List.countP_eq_length_filter]
    have hpoint : ∀ ea ∈ s.elemAttrs,
        (((fun ea => hasA ea.attrs elemIndexAttr) ∘ tagAttrsFrom 0 (selectItems p)) ea
          = true) ↔
        (((selectItems p).any (fun it => it.element.eid == ea.eid)) = true) := by
      intro ea hea
      show (hasA (tagAttrsFrom 0 (selectItems p) ea).attrs elemIndexAttr = true) ↔ _
      have hiso := @List.findIdx?_isSome _ (selectItems p)
        (fun it => it.element.eid == ea.eid)
      rcases hf : (selectItems p).findIdx? (fun it => it.element.eid == ea.eid)
        with _ | k
      · rw [tagAttrsFrom_eq_none hf, hclean ea hea]
        rw [hf] at hiso
        simp only [Option.isSome_none] at hiso
        rw [← hiso]
      · rw [tagAttrsFrom_eq_some hf]
        rw [hasA_setA_same]
        rw [hf] at hiso
        simp only [Option.isSome_some] at hiso
        rw [← hiso]
    rw [List.countP_congr hpoint]
    have hswap : s.elemAttrs.countP
        (fun ea => (selectItems p).any (fun it => it.element.eid == ea.eid)) =
        (s.elemAttrs.map (fun ea => ea.eid)).countP
          (fun x => ((selectItems p).map (fun it => it.element.eid)).any
            (fun y => y == x)) := by
      rw [List.countP_map]
      apply List.countP_congr
      intro ea _
      simp [List.any_map, Function.comp]
    rw [hswap, heids]
    rw [countP_mem_eq_length _ _ hsubeids hnodup hsn]
    exact List.length_map _ _
  · intro i hi
    have hitmem : (selectItems p).get ⟨i, hi⟩ ∈ selectItems p := List.get_mem _ _ _
    have helem := hmemel _ hitmem
    have heidm : ((selectItems p).get ⟨i, hi⟩).element.eid ∈
        s.elemAttrs.map (fun ea => ea.eid) := by
      rw [heids]
      exact List.mem_map_of_mem _ helem
    obtain ⟨ea, hea, heaeq⟩ := List.mem_map.mp heidm
    refine ⟨tagAttrsFrom 0 (selectItems p) ea, ?_, ?_, ?_⟩
    · rw [hshape]
      exact List.mem_map_of_mem _ hea
    · rw [tagAttrsFrom_eid]
      exact heaeq
    · have hf : (selectItems p).findIdx? (fun it => it.element.eid == ea.eid) =
          some i := by
        rw [heaeq]
        exact findIdx?_get_eq (selectItems p) i hi hsn
      rw [tagAttrsFrom_eq_some hf]
      show getA (setA ea.attrs elemIndexAttr (toString (0 + i))) elemIndexAttr =
        some (toString i)
      rw [getA_setA_same, Nat.zero_add]
  · have hvals : (markPage p s).2.elemAttrs.filterMap
        (fun ea => getA ea.attrs elemIndexAttr) =
        (s.elemAttrs.map (fun ea => ea.eid)).filterMap
          (fun x => ((selectItems p).findIdx? (fun it => it.element.eid == x)).map
            (fun k => toString k)) := by
      rw [hshape, List.filterMap_map, List.filterMap_map]
      apply List.filterMap_congr
      intro ea hea
      show getA (tagAttrsFrom 0 (selectItems p) ea).attrs elemIndexAttr =
        ((selectItems p).findIdx? (fun it => it.element.eid == ea.eid)).map
          (fun k => toString k)
      rcases hf : (selectItems p).findIdx? (fun it => it.element.eid == ea.eid)
        with _ | k
      · rw [tagAttrsFrom_eq_none hf, getA_of_hasA_false (hclean ea hea), hf]
        rfl
      · rw [tagAttrsFrom_eq_some hf]
        show getA (setA ea.attrs elemIndexAttr (toString (0 + k))) elemIndexAttr = _
        rw [getA_setA_same, Nat.zero_add, hf]
        rfl
    rw [hvals]
    rw [← List.map_filterMap]
    apply List.Perm.map
    have heidsnodup : (s.elemAttrs.map (fun ea => ea.eid)).Nodup := by
      rw [heids]
      exact hnodup
    have hposnodup : ((s.elemAttrs.map (fun ea => ea.eid)).filterMap
        (fun x => (selectItems p).findIdx?
          (fun it => it.element.eid == x))).Nodup := by
      apply List.Nodup.filterMap ?_ heidsnodup
      intro x1 x2 k hk1 hk2
      rw [Option.mem_def] at hk1 hk2
      obtain ⟨hb1, hp1, -⟩ := List.findIdx?_eq_some_iff_getElem.mp hk1
      obtain ⟨hb2, hp2, -⟩ := List.findIdx?_eq_some_iff_getElem.mp hk2
      have e1 : (selectItems p)[k].element.eid = x1 := by simpa using hp1
      have e2 : (selectItems p)[k].element.eid = x2 := by simpa using hp2
      rw [← e1, e2]
    apply (List.perm_ext_iff_of_nodup hposnodup (List.nodup_range _)).mpr
    intro k
    rw [List.mem_filterMap, List.mem_range]
    constructor
    · rintro ⟨x, -, hgx⟩
      obtain ⟨hb, -, -⟩ := List.findIdx?_eq_some_iff_getElem.mp hgx
      exact hb
    · intro hk
      refine ⟨((selectItems p).get ⟨k, hk⟩).element.eid, ?_, ?_⟩
      · rw [heids]
        exact List.mem_map_of_mem _ (hmemel _ (List.get_mem _ _ _))
      · exact findIdx?_get_eq (selectItems p) k hk hsn

section
set_option maxRecDepth 40000
attribute [local semireducible] Rat.add Rat.mul Rat.sub Rat.inv

/-- C2 witness: the index bijection at the concrete sample page. -/
theorem markPage_index_bijection_witness :
    (markPage samplePage sampleState).1 =
      List.range (selectItems samplePage).length ∧
    countTagged (markPage samplePage sampleState).2 =
      (selectItems samplePage).length ∧
    (∀ i (hi : i < (selectItems samplePage).length),
        ∃ ea, ea ∈ (markPage samplePage sampleState).2.elemAttrs ∧
          ea.eid = ((selectItems samplePage).get ⟨i, hi⟩).element.eid ∧
          getA ea.attrs elemIndexAttr = some (toString i)) ∧
    List.Perm
      ((markPage samplePage sampleState).2.elemAttrs.filterMap
        (fun ea => getA ea.attrs elemIndexAttr))
      ((List.range (selectItems samplePage).length).map (fun i => toString i)) :=
  markPage_index_bijection samplePage sampleState (by decide) (by decide) (by decide)

/-- C1: the round-trip fails on the code as written.  On the sample page
markPage tags its two selected elements; clearRectsAndTags then removes
all overlay nodes, but — because its tag-removal pass selects the
misspelled attribute name `date-voyager-element-index` — both elements
still carry `data-voyager-element-index` afterwards (the claim requires
zero).  The correctly-spelled clearElements variant does strip them. -/
theorem clearRectsAndTags_leaves_tags :
    countTagged (clearRectsAndTags (markPage samplePage sampleState).2) = 2 ∧
    (clearRectsAndTags (markPage samplePage sampleState).2).overlays = [] ∧
    countTagged (clearElements (markPage samplePage sampleState).2) = 0 := by
  refine ⟨by decide, by decide, by decide⟩

end

end Voyager
